import Mathlib

/-!
Verification of the cryptographic utility layer of the `cliff3-util` Rust
crate (`src/encrypt_util.rs`, `src/error.rs`) against its specification.

Byte sequences are modelled as `List Nat` (each element a byte value),
fallible operations as `Except LibErr`, and a panic as the dedicated
`PanicOr` outcome.  The external OpenSSL primitives the crate calls are
modelled at their documented boundary: `EVP_BytesToKey` and CBC mode with
PKCS#7 padding are written out in full, parametric over the block cipher
and over MD5, while the RSA primitives are abstract parameters constrained
by hypotheses in the theorems.  The SHA-256/SHA-512 digests used by
`make_sha_hash` are implemented in full.
-/

-- ## Error taxonomy (src/error.rs and CryptoError in src/encrypt_util.rs)

/-- A value of one of the three concrete error types implementing the Rust
`LibError` trait: `MissingArgumentError`, `InvalidArgumentError`
(src/error.rs) and `CryptoError` (src/encrypt_util.rs), each carrying its
message string. -/
inductive LibErr : Type where
  | missingArgument : String → LibErr
  | invalidArgument : String → LibErr
  | cryptoError : String → LibErr
deriving DecidableEq, Repr

/-- The stable type discriminant of an error, as exposed by
`get_type_name_from_instance`. -/
inductive ErrKind : Type where
  | missingArgument
  | invalidArgument
  | cryptoError
deriving DecidableEq, Repr

/-- Kind of a `LibErr` value (which concrete Rust error type it is). -/
def LibErr.kind : LibErr → ErrKind
  | .missingArgument _ => .missingArgument
  | .invalidArgument _ => .invalidArgument
  | .cryptoError _ => .cryptoError

-- ## Byte-level helpers

/-- UTF-8 bytes of an ASCII string (all strings used here are ASCII). -/
def asciiBytes (s : String) : List Nat :=
  s.data.map Char.toNat

/-- One lowercase hex digit. -/
def hexDigit (d : Nat) : Char :=
  Char.ofNat (if d < 10 then 48 + d else 87 + d)

/-- Lowercase two-digit hex encoding of one byte, as produced by the Rust
iterator over format specifier 02x. -/
def byteToHex (b : Nat) : List Char :=
  [hexDigit (b / 16 % 16), hexDigit (b % 16)]

/-- The joined lowercase hex string of a byte sequence. -/
def bytesToHexString (bs : List Nat) : String :=
  String.mk (bs.flatMap byteToHex)

/-- Splitting a list into chunks of `n` elements, with explicit fuel so the
definition reduces in the kernel; the last chunk may be shorter. -/
def chunksOfAux (n : Nat) : Nat → List Nat → List (List Nat)
  | 0, _ => []
  | _, [] => []
  | fuel + 1, l => l.take n :: chunksOfAux n fuel (l.drop n)

/-- Splitting a list into chunks of `n` elements (`n` is positive at every
use site). -/
def chunksOf (n : Nat) (l : List Nat) : List (List Nat) :=
  chunksOfAux n l.length l

/-- Big-endian interpretation of a byte list as a number. -/
def beWord (bs : List Nat) : Nat :=
  bs.foldl (fun acc b => acc * 256 + b) 0

/-- Big-endian byte decomposition of a number into `n` bytes. -/
def beBytes (n : Nat) (x : Nat) : List Nat :=
  (List.range n).map (fun i => x >>> (8 * (n - 1 - i)) % 256)

-- ## SHA-256 (the sha2 crate's Sha256, modelled in full)

/-- Right rotation of a 32-bit word. -/
def rotr32 (n x : Nat) : Nat :=
  ((x >>> n) ||| (x <<< (32 - n))) % 4294967296

/-- Addition modulo 2^32. -/
def add32 (a b : Nat) : Nat :=
  (a + b) % 4294967296

/-- SHA-256 round constants. -/
def sha256K : List Nat :=
  [1116352408, 1899447441, 3049323471, 3921009573,
  961987163, 1508970993, 2453635748, 2870763221,
  3624381080, 310598401, 607225278, 1426881987,
  1925078388, 2162078206, 2614888103, 3248222580,
  3835390401, 4022224774, 264347078, 604807628,
  770255983, 1249150122, 1555081692, 1996064986,
  2554220882, 2821834349, 2952996808, 3210313671,
  3336571891, 3584528711, 113926993, 338241895,
  666307205, 773529912, 1294757372, 1396182291,
  1695183700, 1986661051, 2177026350, 2456956037,
  2730485921, 2820302411, 3259730800, 3345764771,
  3516065817, 3600352804, 4094571909, 275423344,
  430227734, 506948616, 659060556, 883997877,
  958139571, 1322822218, 1537002063, 1747873779,
  1955562222, 2024104815, 2227730452, 2361852424,
  2428436474, 2756734187, 3204031479, 3329325298]

/-- SHA-256 initial hash values. -/
def sha256H0 : List Nat :=
  [1779033703, 3144134277, 1013904242, 2773480762,
  1359893119, 2600822924, 528734635, 1541459225]

/-- Padding a message to a whole number of 64-byte SHA-256 blocks
(append 0x80, zeros, then the 8-byte big-endian bit length). -/
def sha256Pad (msg : List Nat) : List Nat :=
  let zeros := (55 + 64 - msg.length % 64) % 64
  msg ++ 128 :: List.replicate zeros 0 ++ beBytes 8 (8 * msg.length)

/-- One step of the SHA-256 message-schedule extension: append the next
word computed from the four tap positions. -/
def sha256ExtendStep (w : List Nat) : List Nat :=
  let i := w.length
  let s0 := (rotr32 7 (w.getD (i - 15) 0)) ^^^ (rotr32 18 (w.getD (i - 15) 0)) ^^^
    ((w.getD (i - 15) 0) >>> 3)
  let s1 := (rotr32 17 (w.getD (i - 2) 0)) ^^^ (rotr32 19 (w.getD (i - 2) 0)) ^^^
    ((w.getD (i - 2) 0) >>> 10)
  w ++ [(w.getD (i - 16) 0 + s0 + w.getD (i - 7) 0 + s1) % 4294967296]

/-- The 64-word SHA-256 message schedule of one block. -/
def sha256Schedule (block : List Nat) : List Nat :=
  Nat.iterate sha256ExtendStep 48 ((chunksOf 4 block).map beWord)

/-- One SHA-256 compression round on the eight working variables. -/
def sha256Round (st : List Nat) (kw : Nat × Nat) : List Nat :=
  match st with
  | [a, b, c, d, e, f, g, h] =>
    let S1 := (rotr32 6 e) ^^^ (rotr32 11 e) ^^^ (rotr32 25 e)
    let ch := (e &&& f) ^^^ ((e ^^^ 4294967295) &&& g)
    let t1 := (h + S1 + ch + kw.1 + kw.2) % 4294967296
    let S0 := (rotr32 2 a) ^^^ (rotr32 13 a) ^^^ (rotr32 22 a)
    let mj := (a &&& b) ^^^ (a &&& c) ^^^ (b &&& c)
    let t2 := (S0 + mj) % 4294967296
    [(t1 + t2) % 4294967296, a, b, c, (d + t1) % 4294967296, e, f, g]
  | other => other

/-- SHA-256 compression of one 64-byte block into the chaining state. -/
def sha256Compress (st : List Nat) (block : List Nat) : List Nat :=
  let w := sha256Schedule block
  let out := (sha256K.zip w).foldl sha256Round st
  List.zipWith add32 st out

/-- The full SHA-256 digest (32 bytes) of a byte sequence. -/
def sha256 (msg : List Nat) : List Nat :=
  let final := ((chunksOf 64 (sha256Pad msg)).foldl sha256Compress sha256H0)
  final.flatMap (beBytes 4)

-- ## SHA-512 (the sha2 crate's Sha512, modelled in full)

/-- Right rotation of a 64-bit word. -/
def rotr64 (n x : Nat) : Nat :=
  ((x >>> n) ||| (x <<< (64 - n))) % 18446744073709551616

/-- Addition modulo 2^64. -/
def add64 (a b : Nat) : Nat :=
  (a + b) % 18446744073709551616

/-- SHA-512 round constants. -/
def sha512K : List Nat :=
  [4794697086780616226, 8158064640168781261, 13096744586834688815,
  16840607885511220156, 4131703408338449720, 6480981068601479193,
  10538285296894168987, 12329834152419229976, 15566598209576043074,
  1334009975649890238, 2608012711638119052, 6128411473006802146,
  8268148722764581231, 9286055187155687089, 11230858885718282805,
  13951009754708518548, 16472876342353939154, 17275323862435702243,
  1135362057144423861, 2597628984639134821, 3308224258029322869,
  5365058923640841347, 6679025012923562964, 8573033837759648693,
  10970295158949994411, 12119686244451234320, 12683024718118986047,
  13788192230050041572, 14330467153632333762, 15395433587784984357,
  489312712824947311, 1452737877330783856, 2861767655752347644,
  3322285676063803686, 5560940570517711597, 5996557281743188959,
  7280758554555802590, 8532644243296465576, 9350256976987008742,
  10552545826968843579, 11727347734174303076, 12113106623233404929,
  14000437183269869457, 14369950271660146224, 15101387698204529176,
  15463397548674623760, 17586052441742319658, 1182934255886127544,
  1847814050463011016, 2177327727835720531, 2830643537854262169,
  3796741975233480872, 4115178125766777443, 5681478168544905931,
  6601373596472566643, 7507060721942968483, 8399075790359081724,
  8693463985226723168, 9568029438360202098, 10144078919501101548,
  10430055236837252648, 11840083180663258601, 13761210420658862357,
  14299343276471374635, 14566680578165727644, 15097957966210449927,
  16922976911328602910, 17689382322260857208, 500013540394364858,
  748580250866718886, 1242879168328830382, 1977374033974150939,
  2944078676154940804, 3659926193048069267, 4368137639120453308,
  4836135668995329356, 5532061633213252278, 6448918945643986474,
  6902733635092675308, 7801388544844847127]

/-- SHA-512 initial hash values. -/
def sha512H0 : List Nat :=
  [7640891576956012808, 13503953896175478587, 4354685564936845355,
  11912009170470909681, 5840696475078001361, 11170449401992604703,
  2270897969802886507, 6620516959819538809]

/-- Padding a message to a whole number of 128-byte SHA-512 blocks
(append 0x80, zeros, then the 16-byte big-endian bit length). -/
def sha512Pad (msg : List Nat) : List Nat :=
  let zeros := (111 + 128 - msg.length % 128) % 128
  msg ++ 128 :: List.replicate zeros 0 ++ beBytes 16 (8 * msg.length)

/-- One step of the SHA-512 message-schedule extension. -/
def sha512ExtendStep (w : List Nat) : List Nat :=
  let i := w.length
  let s0 := (rotr64 1 (w.getD (i - 15) 0)) ^^^ (rotr64 8 (w.getD (i - 15) 0)) ^^^
    ((w.getD (i - 15) 0) >>> 7)
  let s1 := (rotr64 19 (w.getD (i - 2) 0)) ^^^ (rotr64 61 (w.getD (i - 2) 0)) ^^^
    ((w.getD (i - 2) 0) >>> 6)
  w ++ [(w.getD (i - 16) 0 + s0 + w.getD (i - 7) 0 + s1) % 18446744073709551616]

/-- The 80-word SHA-512 message schedule of one block. -/
def sha512Schedule (block : List Nat) : List Nat :=
  Nat.iterate sha512ExtendStep 64 ((chunksOf 8 block).map beWord)

/-- One SHA-512 compression round on the eight working variables. -/
def sha512Round (st : List Nat) (kw : Nat × Nat) : List Nat :=
  match st with
  | [a, b, c, d, e, f, g, h] =>
    let S1 := (rotr64 14 e) ^^^ (rotr64 18 e) ^^^ (rotr64 41 e)
    let ch := (e &&& f) ^^^ ((e ^^^ 18446744073709551615) &&& g)
    let t1 := (h + S1 + ch + kw.1 + kw.2) % 18446744073709551616
    let S0 := (rotr64 28 a) ^^^ (rotr64 34 a) ^^^ (rotr64 39 a)
    let mj := (a &&& b) ^^^ (a &&& c) ^^^ (b &&& c)
    let t2 := (S0 + mj) % 18446744073709551616
    [(t1 + t2) % 18446744073709551616, a, b, c, (d + t1) % 18446744073709551616, e, f, g]
  | other => other

/-- SHA-512 compression of one 128-byte block into the chaining state. -/
def sha512Compress (st : List Nat) (block : List Nat) : List Nat :=
  let w := sha512Schedule block
  let out := (sha512K.zip w).foldl sha512Round st
  List.zipWith add64 st out

/-- The full SHA-512 digest (64 bytes) of a byte sequence. -/
def sha512 (msg : List Nat) : List Nat :=
  let final := ((chunksOf 128 (sha512Pad msg)).foldl sha512Compress sha512H0)
  final.flatMap (beBytes 8)

-- ## HashEngine: make_sha_hash / make_sha_hash_string (src/encrypt_util.rs)

/-- The `SHA_TYPE` enum of src/encrypt_util.rs. -/
inductive SHA_TYPE : Type where
  | SHA_256
  | SHA_512
deriving DecidableEq, Repr

/-- The streaming digest state of the sha2 crate: `update` accumulates
input bytes in order; `finalize` digests the accumulated bytes. -/
def digestUpdate (state data : List Nat) : List Nat :=
  state ++ data

/-- Finalizing a sha2 digest state under the selected algorithm. -/
def digestFinalize (hash_type : SHA_TYPE) (state : List Nat) : List Nat :=
  match hash_type with
  | .SHA_256 => sha256 state
  | .SHA_512 => sha512 state

/-- `make_sha_hash` (src/encrypt_util.rs lines 150-180): rejects an empty
target with `MissingArgumentError`, otherwise updates the digest with the
target, then with the salt when it is present and non-empty, and
finalizes. -/
def make_sha_hash (hash_type : SHA_TYPE) (target : List Nat)
    (salt : Option (List Nat)) : Except LibErr (List Nat) :=
  if target = [] then
    .error (.missingArgument "Hash 대상이 빈 문자열 입니다.")
  else
    let st0 := digestUpdate [] target
    let st1 := match salt with
      | none => st0
      | some s => if s = [] then st0 else digestUpdate st0 s
    .ok (digestFinalize hash_type st1)

/-- `make_sha_hash_string` (src/encrypt_util.rs lines 216-231): the hex
encoding of `make_sha_hash`, errors passed through. -/
def make_sha_hash_string (hash_type : SHA_TYPE) (target : List Nat)
    (salt : Option (List Nat)) : Except LibErr String :=
  match make_sha_hash hash_type target salt with
  | .ok r => .ok (bytesToHexString r)
  | .error e => .error e

-- ## KeyDerivation + SymmetricCipher (src/encrypt_util.rs)

/-- The `AES_TYPE` enum of src/encrypt_util.rs. -/
inductive AES_TYPE : Type where
  | AES_128
  | AES_256
deriving DecidableEq, Repr

/-- Key length in bytes of the CBC cipher selected from an `AES_TYPE`
(`Cipher::aes_128_cbc` and `Cipher::aes_256_cbc`); the IV and block
lengths are always 16. -/
def AES_TYPE.keyLen : AES_TYPE → Nat
  | .AES_128 => 16
  | .AES_256 => 32

/-- The `AESResult` struct of src/encrypt_util.rs: the salt that was used,
the ciphertext, and the derived IV. -/
structure AESResult : Type where
  salt : Option (List Nat)
  result : List Nat
  iv : List Nat
deriving DecidableEq, Repr

/-- `validate_salt` (src/encrypt_util.rs lines 332-345): an absent salt is
accepted; a present salt must be exactly 8 bytes. -/
def validate_salt (salt : Option (List Nat)) : Except LibErr Unit :=
  match salt with
  | none => .ok ()
  | some v =>
    if v.length ≠ 8 then
      .error (.invalidArgument "Salt length is invalid(must 8 bytes)")
    else
      .ok ()

/-- The external primitives `aes_encrypt`/`aes_decrypt` call into: the MD5
digest used by `EVP_BytesToKey` key derivation, and the raw AES block
cipher (keyed 16-byte-block encryption and decryption) underlying the CBC
mode of `openssl::symm::encrypt`/`decrypt`. -/
structure SymmPrims : Type where
  md5 : List Nat → List Nat
  encB : List Nat → List Nat → List Nat
  decB : List Nat → List Nat → List Nat

/-- One round digest of `EVP_BytesToKey`: the digest is applied once to
the input and then re-applied `count - 1` further times to its own
output (`count ≤ 1` means a single application). -/
def evpRoundDigest (md5 : List Nat → List Nat) (count : Nat)
    (input : List Nat) : List Nat :=
  Nat.iterate md5 (count - 1) (md5 input)

/-- The accumulation loop of `EVP_BytesToKey`: each round digests the
previous round's digest followed by secret and salt (first round: just
secret and salt), and rounds accumulate until `needed` bytes exist.  The
fuel bounds the rounds and is chosen large enough at the call site. -/
def evpAccum (rd : List Nat → List Nat) (dataSalt : List Nat) (needed : Nat) :
    Nat → List Nat → List Nat → List Nat
  | 0, _, acc => acc
  | fuel + 1, prev, acc =>
    let d := rd (prev ++ dataSalt)
    if needed ≤ (acc ++ d).length then acc ++ d
    else evpAccum rd dataSalt needed fuel d (acc ++ d)

/-- `openssl::pkcs5::bytes_to_key` (OpenSSL `EVP_BytesToKey` with the MD5
digest): derives `keyLen` key bytes followed by `ivLen` IV bytes from the
accumulated digest stream of secret and salt. -/
def bytes_to_key (md5 : List Nat → List Nat) (keyLen ivLen : Nat)
    (secret : List Nat) (salt : Option (List Nat)) (count : Nat) :
    List Nat × List Nat :=
  let dataSalt := secret ++ salt.getD []
  let acc := evpAccum (evpRoundDigest md5 count) dataSalt (keyLen + ivLen)
    (keyLen + ivLen) [] []
  (acc.take keyLen, (acc.drop keyLen).take ivLen)

/-- Pointwise xor of two byte lists (equal length at every use site). -/
def xorBytes (a b : List Nat) : List Nat :=
  List.zipWith Nat.xor a b

/-- PKCS#7 padding to a whole number of `block`-byte blocks: append `r`
copies of the byte `r`, `1 ≤ r ≤ block`. -/
def pkcs7Pad (block : Nat) (m : List Nat) : List Nat :=
  let r := block - m.length % block
  m ++ List.replicate r r

/-- PKCS#7 unpadding with OpenSSL's full check: the last byte `n` must be
in `1..block`, and the last `n` bytes must all equal `n`. -/
def pkcs7Unpad (block : Nat) (m : List Nat) : Option (List Nat) :=
  match m.reverse with
  | [] => none
  | n :: _ =>
    if n = 0 ∨ block < n ∨ m.length < n then none
    else if m.drop (m.length - n) = List.replicate n n then
      some (m.take (m.length - n))
    else none

/-- CBC-mode encryption over 16-byte blocks: each plaintext block is
xored with the previous ciphertext block (initially the IV) and then
block-encrypted. -/
def cbcEncBlocks (encB : List Nat → List Nat → List Nat) (key : List Nat) :
    List Nat → List (List Nat) → List (List Nat)
  | _, [] => []
  | iv, b :: bs =>
    let c := encB key (xorBytes iv b)
    c :: cbcEncBlocks encB key c bs

/-- CBC-mode decryption over 16-byte blocks: each ciphertext block is
block-decrypted and xored with the previous ciphertext block (initially
the IV). -/
def cbcDecBlocks (decB : List Nat → List Nat → List Nat) (key : List Nat) :
    List Nat → List (List Nat) → List (List Nat)
  | _, [] => []
  | iv, c :: cs =>
    xorBytes iv (decB key c) :: cbcDecBlocks decB key c cs

/-- The one-shot `openssl::symm::encrypt` for an AES-CBC cipher: fails if
the key or IV length does not match the cipher, otherwise PKCS#7-pads the
data and encrypts it in CBC mode. -/
def opensslEncrypt (encB : List Nat → List Nat → List Nat) (keyLen : Nat)
    (key iv data : List Nat) : Option (List Nat) :=
  if key.length = keyLen ∧ iv.length = 16 then
    some (List.flatten (cbcEncBlocks encB key iv (chunksOf 16 (pkcs7Pad 16 data))))
  else none

/-- The one-shot `openssl::symm::decrypt` for an AES-CBC cipher: fails if
the key or IV length does not match the cipher or the data is not a
positive multiple of the block size, otherwise decrypts in CBC mode and
verifies and removes the PKCS#7 padding (failing on bad padding). -/
def opensslDecrypt (decB : List Nat → List Nat → List Nat) (keyLen : Nat)
    (key iv data : List Nat) : Option (List Nat) :=
  if key.length = keyLen ∧ iv.length = 16 ∧ data.length ≠ 0 ∧ data.length % 16 = 0 then
    pkcs7Unpad 16 (List.flatten (cbcDecBlocks decB key iv (chunksOf 16 data)))
  else none

/-- `aes_encrypt` (src/encrypt_util.rs lines 391-450): rejects an empty
target and an invalid salt, derives key and IV with `bytes_to_key` (MD5,
`repeat_count` rounds), CBC-encrypts the target, and bundles ciphertext,
IV and salt.  A failure of the encryption call itself is wrapped in
`InvalidArgumentError` (the `CryptoError` branch of the source guards the
`bytes_to_key` call, whose model is total). -/
def aes_encrypt (P : SymmPrims) (enc_type : AES_TYPE) (target secret : List Nat)
    (salt : Option (List Nat)) (repeat_count : Nat) : Except LibErr AESResult :=
  if target = [] then
    .error (.invalidArgument "암호화 대상이 빈 문자열 입니다")
  else
    match validate_salt salt with
    | .error e => .error e
    | .ok _ =>
      match opensslEncrypt P.encB enc_type.keyLen
        (bytes_to_key P.md5 enc_type.keyLen 16 secret salt repeat_count).1
        (bytes_to_key P.md5 enc_type.keyLen 16 secret salt repeat_count).2
        target with
      | some ct => .ok ⟨salt, ct,
          (bytes_to_key P.md5 enc_type.keyLen 16 secret salt repeat_count).2⟩
      | none => .error (.invalidArgument "암호화 처리 오류")

/-- `aes_decrypt` (src/encrypt_util.rs lines 500-562): rejects an absent
or empty target and an invalid salt, re-derives the key with
`bytes_to_key` (the IV is supplied, not re-derived), and CBC-decrypts.  A
failure of the decryption call itself is wrapped in
`InvalidArgumentError`. -/
def aes_decrypt (P : SymmPrims) (enc_type : AES_TYPE) (target : Option (List Nat))
    (secret iv : List Nat) (salt : Option (List Nat)) (repeat_count : Nat) :
    Except LibErr (List Nat) :=
  match target with
  | none => .error (.missingArgument "복호화 대상이 지정되지 않았습니다.")
  | some v =>
    if v.length = 0 then
      .error (.invalidArgument "복호화 대상의 길이가 0 입니다.")
    else
      match validate_salt salt with
      | .error e => .error e
      | .ok _ =>
        match opensslDecrypt P.decB enc_type.keyLen
          (bytes_to_key P.md5 enc_type.keyLen 16 secret salt repeat_count).1
          iv v with
        | some vv => .ok vv
        | none => .error (.invalidArgument "복호화 처리 오류")

-- ## AsymmetricKeypair (src/encrypt_util.rs)

/-- The `RSA_BIT` enum of src/encrypt_util.rs. -/
inductive RSA_BIT : Type where
  | B_1024
  | B_2048
  | B_4096
  | B_8192
deriving DecidableEq, Repr

/-- `RSA_BIT::bit` (src/encrypt_util.rs lines 592-599). -/
def RSA_BIT.bit : RSA_BIT → Nat
  | .B_1024 => 1024
  | .B_2048 => 2048
  | .B_4096 => 4096
  | .B_8192 => 8192

/-- `RSA_BIT::bytes` (src/encrypt_util.rs lines 601-608). -/
def RSA_BIT.bytes : RSA_BIT → Nat
  | .B_1024 => 128
  | .B_2048 => 256
  | .B_4096 => 512
  | .B_8192 => 1024

/-- The `RSAResult` struct of src/encrypt_util.rs. -/
structure RSAResult : Type where
  public_key : List Nat
  public_modulus : List Nat
  public_exponent : List Nat
  private_key : List Nat
  private_modulus : List Nat
  private_exponent : List Nat
  result : List Nat
deriving DecidableEq, Repr

/-- The outcome of a Rust call that can panic (`Result::unwrap` on an
`Err`) instead of returning. -/
inductive PanicOr (α : Type) : Type where
  | panicked : PanicOr α
  | returned : α → PanicOr α
deriving DecidableEq, Repr

/-- The external RSA primitives of the openssl crate used by the source,
over an abstract key type `K`: key generation (`Rsa::generate`, random by
design, hence a parameter), PEM export/import, modulus size in bytes,
modulus and exponent bytes, and the PKCS#1 v1.5 padded raw operations.
`publicEncrypt key target` and `privateDecrypt key target` return the
bytes the primitive writes into the caller's buffer, or `none` on
failure. -/
structure RsaPrims (K : Type) : Type where
  generate : Nat → Option K
  publicKeyToPem : K → Option (List Nat)
  privateKeyToPem : K → Option (List Nat)
  publicKeyFromPem : List Nat → Option K
  privateKeyFromPem : List Nat → Option K
  size : K → Nat
  nBytes : K → List Nat
  eBytes : K → List Nat
  dBytes : K → List Nat
  publicEncrypt : K → List Nat → Option (List Nat)
  privateDecrypt : K → List Nat → Option (List Nat)

/-- The caller-allocated buffer of `rsa.size()` zero bytes after the
primitive has written `written` into its front. -/
def rsaBuffer (size : Nat) (written : List Nat) : List Nat :=
  written.take size ++ List.replicate (size - written.length) 0

/-- `generate_rsa_keypair` (src/encrypt_util.rs lines 750-762): a
generation failure is wrapped in `CryptoError`. -/
def generate_rsa_keypair {K : Type} (P : RsaPrims K) (bit_size : RSA_BIT) :
    Except LibErr K :=
  match P.generate bit_size.bit with
  | some kp => .ok kp
  | none => .error (.cryptoError "RSA key pair 생성 중 오류가 발생하였습니다.")

/-- `rsa_encrypt` (src/encrypt_util.rs lines 929-945): the result of
`Rsa::public_key_from_pem` is unwrapped, so a PEM parse failure panics
instead of returning an error; an encryption failure is wrapped in
`CryptoError`; on success the whole `rsa.size()`-byte buffer is
returned. -/
def rsa_encrypt {K : Type} (P : RsaPrims K) (target pub_key : List Nat) :
    PanicOr (Except LibErr (List Nat)) :=
  match P.publicKeyFromPem pub_key with
  | none => .panicked
  | some rsa =>
    match P.publicEncrypt rsa target with
    | none => .returned (.error (.cryptoError "RSA 암호화 처리 중 오류가 발생하였습니다."))
    | some written => .returned (.ok (rsaBuffer (P.size rsa) written))

/-- `rsa_encrypt_without_key` (src/encrypt_util.rs lines 813-849):
generates a fresh keypair, exports both PEMs, encrypts with `rsa_encrypt`,
and bundles keys, modulus/exponent bytes and ciphertext. -/
def rsa_encrypt_without_key {K : Type} (P : RsaPrims K) (target : List Nat)
    (bit_size : RSA_BIT) : PanicOr (Except LibErr RSAResult) :=
  match generate_rsa_keypair P bit_size with
  | .error e => .returned (.error e)
  | .ok key_pair =>
    match P.publicKeyToPem key_pair with
    | none => .returned (.error (.cryptoError "Public key에서 오류가 발생하였습니다."))
    | some pub_pem =>
      match P.privateKeyToPem key_pair with
      | none => .returned (.error (.cryptoError "Private key에서 오류가 발생하였습니다."))
      | some prv_pem =>
        match rsa_encrypt P target pub_pem with
        | .panicked => .panicked
        | .returned (.error e) => .returned (.error e)
        | .returned (.ok ct) =>
          .returned (.ok ⟨pub_pem, P.nBytes key_pair, P.eBytes key_pair,
            prv_pem, P.nBytes key_pair, P.dBytes key_pair, ct⟩)

/-- `rsa_decrypt` (src/encrypt_util.rs lines 889-915): parse failure and
decryption failure are wrapped in `CryptoError`; on success only the
first `real_size` bytes of the buffer (the actual plaintext length the
primitive reports) are returned. -/
def rsa_decrypt {K : Type} (P : RsaPrims K) (target prv_key : List Nat) :
    Except LibErr (List Nat) :=
  match P.privateKeyFromPem prv_key with
  | none => .error (.cryptoError "개인키 오류가 발생하였습니다.")
  | some rsa =>
    match P.privateDecrypt rsa target with
    | none => .error (.cryptoError "RSA 복호화 처리 중 오류가 발생하였습니다.")
    | some written => .ok ((rsaBuffer (P.size rsa) written).take written.length)

-- ## Lemmas about the chunking, padding and CBC building blocks

theorem chunksOfAux_nil (n fuel : Nat) : chunksOfAux n fuel [] = [] := by
  cases fuel <;> rfl

theorem chunksOfAux_cons (n fuel a : Nat) (t : List Nat) :
    chunksOfAux n (fuel + 1) (a :: t) =
      (a :: t).take n :: chunksOfAux n fuel ((a :: t).drop n) := rfl

theorem mul_pred (n k : Nat) : n * (k - 1) = n * k - n := by
  cases k with
  | zero => simp
  | succ k => simp [Nat.mul_succ]

theorem flatten_chunksOfAux (n : Nat) (hn : 0 < n) :
    ∀ (fuel : Nat) (l : List Nat), l.length ≤ fuel →
      (chunksOfAux n fuel l).flatten = l := by
  intro fuel
  induction fuel with
  | zero =>
    intro l hl
    rw [List.length_eq_zero.mp (Nat.le_zero.mp hl)]
    rfl
  | succ fuel ih =>
    intro l hl
    cases l with
    | nil => rfl
    | cons a t =>
      rw [chunksOfAux_cons, List.flatten_cons,
        ih ((a :: t).drop n) (by
          simp only [List.length_drop, List.length_cons]
          simp only [List.length_cons] at hl
          omega)]
      exact List.take_append_drop n (a :: t)

theorem flatten_chunksOf (n : Nat) (hn : 0 < n) (l : List Nat) :
    (chunksOf n l).flatten = l :=
  flatten_chunksOfAux n hn l.length l (Nat.le_refl _)

theorem chunksOfAux_flatten (n : Nat) (hn : 0 < n) :
    ∀ (bs : List (List Nat)) (fuel : Nat),
      (∀ b ∈ bs, b.length = n) → bs.flatten.length ≤ fuel →
      chunksOfAux n fuel bs.flatten = bs := by
  intro bs
  induction bs with
  | nil =>
    intro fuel _ _
    exact chunksOfAux_nil n fuel
  | cons b t ih =>
    intro fuel hlen hfuel
    have hb : b.length = n := hlen b (by simp)
    rw [List.flatten_cons] at hfuel ⊢
    rw [List.length_append, hb] at hfuel
    cases b with
    | nil => simp [← hb] at hn
    | cons x xs =>
      cases fuel with
      | zero => simp at hfuel; omega
      | succ fuel =>
        rw [List.cons_append, chunksOfAux_cons, ← List.cons_append, ← hb,
          List.take_left, List.drop_left, hb,
          ih fuel (fun bb hbb => hlen bb (by simp [hbb])) (by simp at hfuel ⊢; omega)]

theorem chunksOf_flatten (n : Nat) (hn : 0 < n) (bs : List (List Nat))
    (hlen : ∀ b ∈ bs, b.length = n) :
    chunksOf n bs.flatten = bs :=
  chunksOfAux_flatten n hn bs bs.flatten.length hlen (Nat.le_refl _)

theorem chunksOfAux_mem_length (n : Nat) (hn : 0 < n) :
    ∀ (fuel : Nat) (l : List Nat), n ∣ l.length → l.length ≤ fuel →
      ∀ b ∈ chunksOfAux n fuel l, b.length = n := by
  intro fuel
  induction fuel with
  | zero =>
    intro l _ hl b hb
    rw [List.length_eq_zero.mp (Nat.le_zero.mp hl), chunksOfAux_nil] at hb
    simp at hb
  | succ fuel ih =>
    intro l hdvd hl b hb
    cases l with
    | nil =>
      rw [chunksOfAux_nil] at hb
      simp at hb
    | cons a t =>
      have hn_le : n ≤ (a :: t).length := by
        rcases hdvd with ⟨k, hk⟩
        have hkne : k ≠ 0 := by
          intro h
          rw [h] at hk
          simp at hk
        calc n = n * 1 := (Nat.mul_one n).symm
        _ ≤ n * k := Nat.mul_le_mul_left n (Nat.one_le_iff_ne_zero.mpr hkne)
        _ = (a :: t).length := hk.symm
      rw [chunksOfAux_cons] at hb
      rcases List.mem_cons.mp hb with h | h
      · rw [h, List.length_take]
        omega
      · refine ih ((a :: t).drop n) ?_ ?_ b h
        · rcases hdvd with ⟨k, hk⟩
          rw [List.length_drop, hk]
          exact ⟨k - 1, by rw [mul_pred]⟩
        · rw [List.length_drop]
          omega

theorem chunksOf_mem_length (n : Nat) (hn : 0 < n) (l : List Nat)
    (hdvd : n ∣ l.length) : ∀ b ∈ chunksOf n l, b.length = n :=
  chunksOfAux_mem_length n hn l.length l hdvd (Nat.le_refl _)

theorem pkcs7Pad_length (m : List Nat) :
    (pkcs7Pad 16 m).length = m.length + (16 - m.length % 16) := by
  simp [pkcs7Pad]

theorem pkcs7Pad_length_dvd (m : List Nat) : 16 ∣ (pkcs7Pad 16 m).length := by
  rw [pkcs7Pad_length]
  omega

theorem pkcs7Pad_length_pos (m : List Nat) : 0 < (pkcs7Pad 16 m).length := by
  rw [pkcs7Pad_length]
  have := Nat.mod_lt m.length (show 0 < 16 by omega)
  omega

theorem pkcs7Unpad_pkcs7Pad (m : List Nat) :
    pkcs7Unpad 16 (pkcs7Pad 16 m) = some m := by
  have hrlo : 1 ≤ 16 - m.length % 16 := by
    have := Nat.mod_lt m.length (show 0 < 16 by omega)
    omega
  have hrhi : 16 - m.length % 16 ≤ 16 := by omega
  unfold pkcs7Unpad pkcs7Pad
  rcases hr : 16 - m.length % 16 with _ | r
  · omega
  · rw [List.reverse_append, List.reverse_replicate, List.replicate_succ]
    simp only [List.cons_append, List.length_append, List.length_replicate]
    have hcond : ¬(r + 1 = 0 ∨ 16 < r + 1 ∨ m.length + (r + 1) < r + 1) := by omega
    rw [if_neg hcond, Nat.add_sub_cancel, ← List.length_replicate (r + 1) (r + 1),
      List.drop_left, List.take_left, List.length_replicate, if_pos rfl]

theorem xorBytes_length (a b : List Nat) :
    (xorBytes a b).length = min a.length b.length := by
  simp [xorBytes]

theorem xorBytes_xorBytes (a : List Nat) :
    ∀ b : List Nat, a.length = b.length → xorBytes a (xorBytes a b) = b := by
  induction a with
  | nil =>
    intro b hb
    rw [List.length_nil] at hb
    rw [(List.length_eq_zero.mp hb.symm)]
    rfl
  | cons x xs ih =>
    intro b hb
    cases b with
    | nil => rfl
    | cons y ys =>
      simp only [xorBytes, List.zipWith_cons_cons] at *
      have hx : x ^^^ (x ^^^ y) = y := by
        rw [← Nat.xor_assoc, Nat.xor_self, Nat.zero_xor]
      show (x ^^^ (x ^^^ y)) :: List.zipWith Nat.xor xs (List.zipWith Nat.xor xs ys) = y :: ys
      rw [hx]
      exact congrArg (y :: ·) (ih ys (by simpa using hb))

theorem cbcEncBlocks_mem_length (encB : List Nat → List Nat → List Nat)
    (key : List Nat) (hencLen : ∀ k b, b.length = 16 → (encB k b).length = 16) :
    ∀ (bs : List (List Nat)) (iv : List Nat), iv.length = 16 →
      (∀ b ∈ bs, b.length = 16) →
      ∀ c ∈ cbcEncBlocks encB key iv bs, c.length = 16 := by
  intro bs
  induction bs with
  | nil =>
    intro iv _ _ c hc
    simp [cbcEncBlocks] at hc
  | cons b t ih =>
    intro iv hiv hlen c hc
    have hb : b.length = 16 := hlen b (by simp)
    have hhead : (encB key (xorBytes iv b)).length = 16 :=
      hencLen key _ (by rw [xorBytes_length, hiv, hb]; simp)
    rcases List.mem_cons.mp hc with h | h
    · rw [h]; exact hhead
    · exact ih (encB key (xorBytes iv b)) hhead
        (fun bb hbb => hlen bb (by simp [hbb])) c h

theorem cbcDecBlocks_cbcEncBlocks (P : SymmPrims)
    (key : List Nat) (hencLen : ∀ k b, b.length = 16 → (P.encB k b).length = 16)
    (hinv : ∀ k b, b.length = 16 → P.decB k (P.encB k b) = b) :
    ∀ (bs : List (List Nat)) (iv : List Nat), iv.length = 16 →
      (∀ b ∈ bs, b.length = 16) →
      cbcDecBlocks P.decB key iv (cbcEncBlocks P.encB key iv bs) = bs := by
  intro bs
  induction bs with
  | nil =>
    intro iv _ _
    rfl
  | cons b t ih =>
    intro iv hiv hlen
    have hb : b.length = 16 := hlen b (by simp)
    have hxlen : (xorBytes iv b).length = 16 := by
      rw [xorBytes_length, hiv, hb]
      simp
    show xorBytes iv (P.decB key (P.encB key (xorBytes iv b))) ::
      cbcDecBlocks P.decB key (P.encB key (xorBytes iv b))
        (cbcEncBlocks P.encB key (P.encB key (xorBytes iv b)) t) = b :: t
    rw [hinv key _ hxlen, xorBytes_xorBytes iv b (by rw [hiv, hb]),
      ih (P.encB key (xorBytes iv b)) (hencLen key _ hxlen)
        (fun bb hbb => hlen bb (by simp [hbb]))]

theorem evpRoundDigest_length (md5 : List Nat → List Nat)
    (hmd5 : ∀ x, (md5 x).length = 16) (count : Nat) (input : List Nat) :
    (evpRoundDigest md5 count input).length = 16 := by
  unfold evpRoundDigest
  have h : ∀ (k : Nat) (y : List Nat), y.length = 16 →
      (Nat.iterate md5 k y).length = 16 := by
    intro k
    induction k with
    | zero =>
      intro y hy
      exact hy
    | succ k ih =>
      intro y hy
      rw [Function.iterate_succ_apply]
      exact ih (md5 y) (hmd5 y)
  exact h (count - 1) (md5 input) (hmd5 input)

theorem evpAccum_length (rd : List Nat → List Nat) (dataSalt : List Nat)
    (needed : Nat) (hrd : ∀ x, (rd x).length = 16) :
    ∀ (fuel : Nat) (prev acc : List Nat), needed ≤ acc.length + fuel →
      needed ≤ (evpAccum rd dataSalt needed fuel prev acc).length := by
  intro fuel
  induction fuel with
  | zero =>
    intro prev acc h
    simpa using h
  | succ fuel ih =>
    intro prev acc h
    show needed ≤ (if needed ≤ (acc ++ rd (prev ++ dataSalt)).length
      then acc ++ rd (prev ++ dataSalt)
      else evpAccum rd dataSalt needed fuel (rd (prev ++ dataSalt))
        (acc ++ rd (prev ++ dataSalt))).length
    by_cases hc : needed ≤ (acc ++ rd (prev ++ dataSalt)).length
    · rw [if_pos hc]
      exact hc
    · rw [if_neg hc]
      refine ih _ _ ?_
      rw [List.length_append, hrd]
      omega

theorem bytes_to_key_key_length (md5 : List Nat → List Nat)
    (hmd5 : ∀ x, (md5 x).length = 16) (keyLen ivLen : Nat) (secret : List Nat)
    (salt : Option (List Nat)) (count : Nat) :
    (bytes_to_key md5 keyLen ivLen secret salt count).1.length = keyLen := by
  unfold bytes_to_key
  have hacc := evpAccum_length (evpRoundDigest md5 count)
    (secret ++ salt.getD []) (keyLen + ivLen)
    (fun x => evpRoundDigest_length md5 hmd5 count x)
    (keyLen + ivLen) [] [] (by simp)
  rw [List.length_take]
  omega

theorem bytes_to_key_iv_length (md5 : List Nat → List Nat)
    (hmd5 : ∀ x, (md5 x).length = 16) (keyLen ivLen : Nat) (secret : List Nat)
    (salt : Option (List Nat)) (count : Nat) :
    (bytes_to_key md5 keyLen ivLen secret salt count).2.length = ivLen := by
  unfold bytes_to_key
  have hacc := evpAccum_length (evpRoundDigest md5 count)
    (secret ++ salt.getD []) (keyLen + ivLen)
    (fun x => evpRoundDigest_length md5 hmd5 count x)
    (keyLen + ivLen) [] [] (by simp)
  rw [List.length_take, List.length_drop]
  omega

theorem flatten_length_uniform (n : Nat) :
    ∀ cs : List (List Nat), (∀ c ∈ cs, c.length = n) →
      cs.flatten.length = n * cs.length := by
  intro cs
  induction cs with
  | nil => simp
  | cons c t ih =>
    intro h
    rw [List.flatten_cons, List.length_append, h c (by simp),
      ih (fun cc hcc => h cc (by simp [hcc])), List.length_cons, Nat.mul_succ]
    omega

theorem opensslDecrypt_opensslEncrypt (P : SymmPrims) (keyLen : Nat)
    (key iv data : List Nat)
    (hencLen : ∀ k b, b.length = 16 → (P.encB k b).length = 16)
    (hinv : ∀ k b, b.length = 16 → P.decB k (P.encB k b) = b)
    (hkey : key.length = keyLen) (hiv : iv.length = 16) (ct : List Nat)
    (henc : opensslEncrypt P.encB keyLen key iv data = some ct) :
    opensslDecrypt P.decB keyLen key iv ct = some data := by
  unfold opensslEncrypt at henc
  rw [if_pos ⟨hkey, hiv⟩] at henc
  have hct : ct = (cbcEncBlocks P.encB key iv (chunksOf 16 (pkcs7Pad 16 data))).flatten :=
    (Option.some.injEq _ _ ▸ henc).symm
  have hblocks : ∀ b ∈ chunksOf 16 (pkcs7Pad 16 data), b.length = 16 :=
    chunksOf_mem_length 16 (by omega) _ (pkcs7Pad_length_dvd data)
  have hcs : ∀ c ∈ cbcEncBlocks P.encB key iv (chunksOf 16 (pkcs7Pad 16 data)),
      c.length = 16 :=
    cbcEncBlocks_mem_length P.encB key hencLen _ iv hiv hblocks
  have hctlen : ct.length =
      16 * (cbcEncBlocks P.encB key iv (chunksOf 16 (pkcs7Pad 16 data))).length := by
    rw [hct]
    exact flatten_length_uniform 16 _ hcs
  have hbsne : chunksOf 16 (pkcs7Pad 16 data) ≠ [] := by
    intro h
    have := flatten_chunksOf 16 (by omega) (pkcs7Pad 16 data)
    rw [h] at this
    have hpos := pkcs7Pad_length_pos data
    rw [← this] at hpos
    simp at hpos
  have hcsne : cbcEncBlocks P.encB key iv (chunksOf 16 (pkcs7Pad 16 data)) ≠ [] := by
    cases hc : chunksOf 16 (pkcs7Pad 16 data) with
    | nil => exact absurd hc hbsne
    | cons b t =>
      intro h
      exact List.cons_ne_nil _ _ h
  have hctne : ct.length ≠ 0 := by
    rw [hctlen]
    cases hc : cbcEncBlocks P.encB key iv (chunksOf 16 (pkcs7Pad 16 data)) with
    | nil => exact absurd hc hcsne
    | cons c t => simp [hc]
  have hctmod : ct.length % 16 = 0 := by
    rw [hctlen]
    simp [Nat.mul_mod_right]
  unfold opensslDecrypt
  rw [if_pos ⟨hkey, hiv, hctne, hctmod⟩, hct,
    chunksOf_flatten 16 (by omega) _ hcs,
    cbcDecBlocks_cbcEncBlocks P key hencLen hinv _ iv hiv hblocks,
    flatten_chunksOf 16 (by omega),
    pkcs7Unpad_pkcs7Pad]

deriving instance DecidableEq for Except

-- ## Claim theorems

/-- C1: for every cipher strength, non-empty plaintext, secret, 8-byte
salt and iteration count, encrypting with `aes_encrypt` and then
decrypting the resulting ciphertext with `aes_decrypt` using the same
secret, the IV from the encryption result, the same salt and the same
iteration count succeeds and returns exactly the original plaintext
bytes.  The block-cipher and MD5 parameters carry their documented
properties as hypotheses (MD5 digests are 16 bytes; the AES block
operations on 16-byte blocks preserve length and are mutually
inverse). -/
theorem aes_encrypt_decrypt_roundtrip (P : SymmPrims) (enc_type : AES_TYPE)
    (target secret s : List Nat) (repeat_count : Nat) (res : AESResult)
    (hmd5 : ∀ x, (P.md5 x).length = 16)
    (hencLen : ∀ k b, b.length = 16 → (P.encB k b).length = 16)
    (hinv : ∀ k b, b.length = 16 → P.decB k (P.encB k b) = b)
    (htarget : target ≠ [])
    (hsalt : s.length = 8)
    (henc : aes_encrypt P enc_type target secret (some s) repeat_count
      = Except.ok res) :
    aes_decrypt P enc_type (some res.result) secret res.iv (some s) repeat_count
      = Except.ok target := by
  have hvs : validate_salt (some s) = Except.ok () := by
    simp [validate_salt, hsalt]
  have hkey : (bytes_to_key P.md5 enc_type.keyLen 16 secret (some s)
      repeat_count).1.length = enc_type.keyLen :=
    bytes_to_key_key_length P.md5 hmd5 enc_type.keyLen 16 secret (some s) repeat_count
  have hiv : (bytes_to_key P.md5 enc_type.keyLen 16 secret (some s)
      repeat_count).2.length = 16 :=
    bytes_to_key_iv_length P.md5 hmd5 enc_type.keyLen 16 secret (some s) repeat_count
  have hE : opensslEncrypt P.encB enc_type.keyLen
      (bytes_to_key P.md5 enc_type.keyLen 16 secret (some s) repeat_count).1
      (bytes_to_key P.md5 enc_type.keyLen 16 secret (some s) repeat_count).2
      target = some (List.flatten (cbcEncBlocks P.encB
        (bytes_to_key P.md5 enc_type.keyLen 16 secret (some s) repeat_count).1
        (bytes_to_key P.md5 enc_type.keyLen 16 secret (some s) repeat_count).2
        (chunksOf 16 (pkcs7Pad 16 target)))) := by
    unfold opensslEncrypt
    rw [if_pos ⟨hkey, hiv⟩]
  simp only [aes_encrypt, if_neg htarget, hvs, hE] at henc
  have hround := opensslDecrypt_opensslEncrypt P enc_type.keyLen
    (bytes_to_key P.md5 enc_type.keyLen 16 secret (some s) repeat_count).1
    (bytes_to_key P.md5 enc_type.keyLen 16 secret (some s) repeat_count).2
    target hencLen hinv hkey hiv _ hE
  have hctne : (List.flatten (cbcEncBlocks P.encB
      (bytes_to_key P.md5 enc_type.keyLen 16 secret (some s) repeat_count).1
      (bytes_to_key P.md5 enc_type.keyLen 16 secret (some s) repeat_count).2
      (chunksOf 16 (pkcs7Pad 16 target)))).length = 0 → False := by
    intro h0
    unfold opensslDecrypt at hround
    rw [if_neg (by intro hAll; exact hAll.2.2.1 h0)] at hround
    exact Option.noConfusion hround
  injection henc with hres
  subst hres
  simp only [aes_decrypt, hvs, hround, if_neg hctne]

/-- A concrete instantiation of the symmetric primitives satisfying the
hypotheses of the round-trip theorem: a constant 16-byte digest and the
identity block cipher. -/
def primsW : SymmPrims :=
  ⟨fun _ => List.replicate 16 0, fun _ b => b, fun _ b => b⟩

/-- Witness for C1 at a concrete input: one byte of plaintext, an 8-byte
salt, iteration count 1. -/
theorem aes_encrypt_decrypt_roundtrip_witness :
    aes_decrypt primsW AES_TYPE.AES_128 (some (97 :: List.replicate 15 15)) [98]
      (List.replicate 16 0) (some [1, 2, 3, 4, 5, 6, 7, 8]) 1 = Except.ok [97] :=
  aes_encrypt_decrypt_roundtrip primsW AES_TYPE.AES_128 [97] [98]
    [1, 2, 3, 4, 5, 6, 7, 8] 1
    ⟨some [1, 2, 3, 4, 5, 6, 7, 8], 97 :: List.replicate 15 15, List.replicate 16 0⟩
    (fun _ => by simp [primsW]) (fun _ _ h => h) (fun _ _ _ => rfl)
    (by decide) (by decide) rfl

/-- Helper: whenever `aes_encrypt` succeeds, the returned salt is the
input salt and the returned IV is the one derived by `bytes_to_key` from
the secret, salt and iteration count alone. -/
theorem aes_encrypt_ok_fields (P : SymmPrims) (enc_type : AES_TYPE)
    (target secret : List Nat) (salt : Option (List Nat)) (repeat_count : Nat)
    (res : AESResult)
    (h : aes_encrypt P enc_type target secret salt repeat_count = Except.ok res) :
    res.salt = salt ∧
    res.iv = (bytes_to_key P.md5 enc_type.keyLen 16 secret salt repeat_count).2 := by
  unfold aes_encrypt at h
  split at h
  · exact absurd h (by simp)
  · split at h
    · exact absurd h (by simp)
    · split at h
      · injection h with h
        subst h
        exact ⟨rfl, rfl⟩
      · exact absurd h (by simp)

/-- C2: for every supplied salt whose length is not exactly 8 bytes, both
`aes_encrypt` and `aes_decrypt` (given a non-empty target) return the
`InvalidArgumentError` produced by `validate_salt`.  The result is the
same for every choice of the underlying primitives `P`, so the rejection
happens before any key derivation or cipher call. -/
theorem aes_salt_length_invalid_rejected (P : SymmPrims) (enc_type : AES_TYPE)
    (target secret s iv : List Nat) (repeat_count : Nat)
    (htarget : target ≠ []) (hs : s.length ≠ 8) :
    aes_encrypt P enc_type target secret (some s) repeat_count
      = Except.error (.invalidArgument "Salt length is invalid(must 8 bytes)") ∧
    aes_decrypt P enc_type (some target) secret iv (some s) repeat_count
      = Except.error (.invalidArgument "Salt length is invalid(must 8 bytes)") := by
  have hvs : validate_salt (some s)
      = Except.error (.invalidArgument "Salt length is invalid(must 8 bytes)") := by
    simp [validate_salt, hs]
  have hlen : ¬(target.length = 0) := by
    intro h
    exact htarget (List.length_eq_zero.mp h)
  constructor
  · simp only [aes_encrypt, if_neg htarget, hvs]
  · simp only [aes_decrypt, if_neg hlen, hvs]

/-- Witness for C2 with a 4-byte salt. -/
theorem aes_salt_length_invalid_rejected_witness :
    aes_encrypt primsW AES_TYPE.AES_128 [97] [98] (some [1, 2, 3, 4]) 1
      = Except.error (.invalidArgument "Salt length is invalid(must 8 bytes)") ∧
    aes_decrypt primsW AES_TYPE.AES_128 (some [97]) [98] []
      (some [1, 2, 3, 4]) 1
      = Except.error (.invalidArgument "Salt length is invalid(must 8 bytes)") :=
  aes_salt_length_invalid_rejected primsW AES_TYPE.AES_128 [97] [98]
    [1, 2, 3, 4] [] 1 (by decide) (by decide)

/-- C6 counterexample: a concrete run in which validation passes and the
CBC encryption primitive fails (the derived key is rejected by the
cipher), where `aes_encrypt` returns an `InvalidArgumentError`, not a
`CryptoError`, refuting the claim that post-validation primitive failures
surface as CryptoError. -/
def primsBad : SymmPrims :=
  ⟨fun _ => [], fun _ b => b, fun _ b => b⟩

/-- C6 counterexample theorem (see `primsBad`). -/
theorem aes_encrypt_primitive_failure_not_crypto_error :
    aes_encrypt primsBad AES_TYPE.AES_128 [97] [98]
      (some [1, 2, 3, 4, 5, 6, 7, 8]) 1
      = Except.error (.invalidArgument "암호화 처리 오류") ∧
    (LibErr.invalidArgument "암호화 처리 오류").kind ≠ ErrKind.cryptoError :=
  ⟨rfl, by decide⟩

/-- C6 amended: when the target and salt pass validation and the
underlying CBC encryption call fails, `aes_encrypt` returns an
`InvalidArgumentError` with message 암호화 처리 오류 (the source's
`CryptoError` branch guards only the `bytes_to_key` call). -/
theorem aes_encrypt_primitive_failure_invalid_argument (P : SymmPrims)
    (enc_type : AES_TYPE) (target secret : List Nat) (salt : Option (List Nat))
    (repeat_count : Nat)
    (htarget : target ≠ [])
    (hvs : validate_salt salt = Except.ok ())
    (hfail : opensslEncrypt P.encB enc_type.keyLen
      (bytes_to_key P.md5 enc_type.keyLen 16 secret salt repeat_count).1
      (bytes_to_key P.md5 enc_type.keyLen 16 secret salt repeat_count).2 target
      = none) :
    aes_encrypt P enc_type target secret salt repeat_count
      = Except.error (.invalidArgument "암호화 처리 오류") := by
  simp only [aes_encrypt, if_neg htarget, hvs, hfail]

/-- Witness for the amended C6 (see `primsBad`). -/
theorem aes_encrypt_primitive_failure_invalid_argument_witness :
    aes_encrypt primsBad AES_TYPE.AES_128 [99] [98]
      (some [1, 2, 3, 4, 5, 6, 7, 8]) 1
      = Except.error (.invalidArgument "암호화 처리 오류") :=
  aes_encrypt_primitive_failure_invalid_argument primsBad AES_TYPE.AES_128
    [99] [98] (some [1, 2, 3, 4, 5, 6, 7, 8]) 1 (by decide) rfl rfl

/-- C7 counterexample: `validate_salt` accepts an absent salt and
`aes_encrypt` with `none` salt succeeds (reaching key derivation and the
cipher), refuting the claim that an absent salt fails validation. -/
theorem aes_encrypt_none_salt_accepted :
    validate_salt none = Except.ok () ∧
    aes_encrypt primsW AES_TYPE.AES_128 [97] [98] none 1
      = Except.ok ⟨none, 97 :: List.replicate 15 15, List.replicate 16 0⟩ :=
  ⟨rfl, rfl⟩

/-- C7 amended: an absent salt passes validation, and `aes_encrypt` with
`none` salt proceeds to key derivation (with no salt bytes appended) and
the cipher call, returning that call's outcome. -/
theorem aes_encrypt_none_salt_proceeds (P : SymmPrims) (enc_type : AES_TYPE)
    (target secret : List Nat) (repeat_count : Nat) (htarget : target ≠ []) :
    aes_encrypt P enc_type target secret none repeat_count =
      match opensslEncrypt P.encB enc_type.keyLen
        (bytes_to_key P.md5 enc_type.keyLen 16 secret none repeat_count).1
        (bytes_to_key P.md5 enc_type.keyLen 16 secret none repeat_count).2
        target with
      | some ct => Except.ok ⟨none, ct,
          (bytes_to_key P.md5 enc_type.keyLen 16 secret none repeat_count).2⟩
      | none => Except.error (.invalidArgument "암호화 처리 오류") := by
  simp only [aes_encrypt, if_neg htarget, validate_salt]

/-- Witness for the amended C7. -/
theorem aes_encrypt_none_salt_proceeds_witness :
    aes_encrypt primsW AES_TYPE.AES_128 [97] [98] none 1 =
      match opensslEncrypt primsW.encB AES_TYPE.AES_128.keyLen
        (bytes_to_key primsW.md5 AES_TYPE.AES_128.keyLen 16 [98] none 1).1
        (bytes_to_key primsW.md5 AES_TYPE.AES_128.keyLen 16 [98] none 1).2
        [97] with
      | some ct => Except.ok ⟨none, ct,
          (bytes_to_key primsW.md5 AES_TYPE.AES_128.keyLen 16 [98] none 1).2⟩
      | none => Except.error (.invalidArgument "암호화 처리 오류") :=
  aes_encrypt_none_salt_proceeds primsW AES_TYPE.AES_128 [97] [98] 1 (by decide)

/-- C10: `aes_encrypt` is deterministic and its IV does not depend on the
plaintext: for two successful calls sharing strength, secret, salt and
iteration count, the IVs coincide and equal the IV derived by
`bytes_to_key` (no fresh randomness), the salts coincide, and equal
plaintexts give byte-for-byte equal results. -/
theorem aes_encrypt_deterministic (P : SymmPrims) (enc_type : AES_TYPE)
    (t t' secret : List Nat) (salt : Option (List Nat)) (repeat_count : Nat)
    (res res' : AESResult)
    (h1 : aes_encrypt P enc_type t secret salt repeat_count = Except.ok res)
    (h2 : aes_encrypt P enc_type t' secret salt repeat_count = Except.ok res') :
    res.iv = (bytes_to_key P.md5 enc_type.keyLen 16 secret salt repeat_count).2 ∧
    res.iv = res'.iv ∧ res.salt = res'.salt ∧ (t = t' → res = res') := by
  have f1 := aes_encrypt_ok_fields P enc_type t secret salt repeat_count res h1
  have f2 := aes_encrypt_ok_fields P enc_type t' secret salt repeat_count res' h2
  refine ⟨f1.2, f1.2.trans f2.2.symm, f1.1.trans f2.1.symm, ?_⟩
  intro ht
  subst ht
  rw [h1] at h2
  exact Except.ok.inj h2

/-- Witness for C10 with two different one-byte plaintexts. -/
theorem aes_encrypt_deterministic_witness :
    (⟨some [1, 2, 3, 4, 5, 6, 7, 8], 97 :: List.replicate 15 15,
        List.replicate 16 0⟩ : AESResult).iv
      = (bytes_to_key primsW.md5 AES_TYPE.AES_128.keyLen 16 [98]
          (some [1, 2, 3, 4, 5, 6, 7, 8]) 1).2 ∧
    (⟨some [1, 2, 3, 4, 5, 6, 7, 8], 97 :: List.replicate 15 15,
        List.replicate 16 0⟩ : AESResult).iv
      = (⟨some [1, 2, 3, 4, 5, 6, 7, 8], 99 :: List.replicate 15 15,
          List.replicate 16 0⟩ : AESResult).iv ∧
    (⟨some [1, 2, 3, 4, 5, 6, 7, 8], 97 :: List.replicate 15 15,
        List.replicate 16 0⟩ : AESResult).salt
      = (⟨some [1, 2, 3, 4, 5, 6, 7, 8], 99 :: List.replicate 15 15,
          List.replicate 16 0⟩ : AESResult).salt ∧
    (([97] : List Nat) = [99] →
      (⟨some [1, 2, 3, 4, 5, 6, 7, 8], 97 :: List.replicate 15 15,
          List.replicate 16 0⟩ : AESResult)
        = ⟨some [1, 2, 3, 4, 5, 6, 7, 8], 99 :: List.replicate 15 15,
            List.replicate 16 0⟩) :=
  aes_encrypt_deterministic primsW AES_TYPE.AES_128 [97] [99] [98]
    (some [1, 2, 3, 4, 5, 6, 7, 8]) 1
    ⟨some [1, 2, 3, 4, 5, 6, 7, 8], 97 :: List.replicate 15 15, List.replicate 16 0⟩
    ⟨some [1, 2, 3, 4, 5, 6, 7, 8], 99 :: List.replicate 15 15, List.replicate 16 0⟩
    rfl rfl

/-- C9: for every digest algorithm and every salt, the digest operation
on an empty target is rejected with an error whose kind is
MissingArgument or InvalidArgument (the source always produces
`MissingArgumentError` here), never accepted. -/
theorem make_sha_hash_empty_target_rejected (hash_type : SHA_TYPE)
    (salt : Option (List Nat)) :
    ∃ e, make_sha_hash hash_type [] salt = Except.error e ∧
      (e.kind = ErrKind.missingArgument ∨ e.kind = ErrKind.invalidArgument) := by
  refine ⟨.missingArgument "Hash 대상이 빈 문자열 입니다.", ?_, Or.inl rfl⟩
  simp [make_sha_hash]

set_option maxRecDepth 8000 in
/-- C8: for every algorithm, non-empty target and present non-empty salt,
the digest is the one-pass hash of the single concatenation of target
bytes followed by salt bytes (no second digest, no HMAC), and the
SHA-256 regression vector for target test with salt salt is
reproduced. -/
theorem make_sha_hash_appends_salt (hash_type : SHA_TYPE)
    (target salt : List Nat) (htarget : target ≠ []) (hsalt : salt ≠ []) :
    make_sha_hash hash_type target (some salt)
      = Except.ok (digestFinalize hash_type (target ++ salt)) ∧
    make_sha_hash_string SHA_TYPE.SHA_256 (asciiBytes "test")
        (some (asciiBytes "salt"))
      = Except.ok "4edf07edc95b2fdcbcaf2378fd12d8ac212c2aa6e326c59c3e629be3039d6432" := by
  constructor
  · simp [make_sha_hash, digestUpdate, if_neg htarget, if_neg hsalt]
  · decide

/-- Witness for C8 at the regression-vector input itself. -/
theorem make_sha_hash_appends_salt_witness :
    make_sha_hash SHA_TYPE.SHA_256 (asciiBytes "test") (some (asciiBytes "salt"))
      = Except.ok (digestFinalize SHA_TYPE.SHA_256
          (asciiBytes "test" ++ asciiBytes "salt")) ∧
    make_sha_hash_string SHA_TYPE.SHA_256 (asciiBytes "test")
        (some (asciiBytes "salt"))
      = Except.ok "4edf07edc95b2fdcbcaf2378fd12d8ac212c2aa6e326c59c3e629be3039d6432" :=
  make_sha_hash_appends_salt SHA_TYPE.SHA_256 (asciiBytes "test")
    (asciiBytes "salt") (by decide) (by decide)

theorem rsaBuffer_length (size : Nat) (written : List Nat) :
    (rsaBuffer size written).length = size := by
  simp only [rsaBuffer, List.length_append, List.length_take, List.length_replicate]
  omega

theorem rsaBuffer_exact (size : Nat) (written : List Nat)
    (h : written.length = size) : rsaBuffer size written = written := by
  unfold rsaBuffer
  rw [← h, List.take_length, Nat.sub_self]
  simp

theorem rsaBuffer_take (size : Nat) (written : List Nat)
    (h : written.length ≤ size) :
    (rsaBuffer size written).take written.length = written := by
  unfold rsaBuffer
  rw [List.take_of_length_le h]
  exact List.take_left written _

/-- C3: whenever keypair generation, PEM export, PEM parse and the
encryption primitive succeed and the generated key's modulus size is the
requested bit size over 8 (the RSA invariant), the ciphertext field of
`rsa_encrypt_without_key` has exactly the fixed byte length
`RSA_BIT::bytes` of the bit size, and that mapping is
1024 to 128, 2048 to 256, 4096 to 512 and 8192 to 1024. -/
theorem rsa_ciphertext_length_fixed {K : Type} (P : RsaPrims K) (target : List Nat)
    (bit_size : RSA_BIT) (kp kpub : K) (pubPem prvPem written : List Nat)
    (hgen : P.generate bit_size.bit = some kp)
    (hpubpem : P.publicKeyToPem kp = some pubPem)
    (hprvpem : P.privateKeyToPem kp = some prvPem)
    (hparse : P.publicKeyFromPem pubPem = some kpub)
    (henc : P.publicEncrypt kpub target = some written)
    (hsize : P.size kpub = bit_size.bit / 8) :
    (∃ bundle, rsa_encrypt_without_key P target bit_size
        = PanicOr.returned (Except.ok bundle) ∧
      bundle.result.length = bit_size.bytes) ∧
    RSA_BIT.bytes RSA_BIT.B_1024 = 128 ∧ RSA_BIT.bytes RSA_BIT.B_2048 = 256 ∧
    RSA_BIT.bytes RSA_BIT.B_4096 = 512 ∧ RSA_BIT.bytes RSA_BIT.B_8192 = 1024 := by
  refine ⟨⟨⟨pubPem, P.nBytes kp, P.eBytes kp, prvPem, P.nBytes kp, P.dBytes kp,
    rsaBuffer (P.size kpub) written⟩, ?_, ?_⟩, rfl, rfl, rfl, rfl⟩
  · simp only [rsa_encrypt_without_key, generate_rsa_keypair, rsa_encrypt,
      hgen, hpubpem, hprvpem, hparse, henc]
  · rw [rsaBuffer_length, hsize]
    cases bit_size <;> rfl

/-- A concrete instantiation of the RSA primitives (over key type `Nat`)
satisfying the hypotheses of the RSA theorems: a single keypair with a
128-byte modulus, PEM blobs `[1]`/`[2]`, a constant 128-byte ciphertext
for the one-byte plaintext `[9]`. -/
def rsaPrimsW : RsaPrims Nat where
  generate := fun _ => some 0
  publicKeyToPem := fun _ => some [1]
  privateKeyToPem := fun _ => some [2]
  publicKeyFromPem := fun l => if l = [1] then some 0 else none
  privateKeyFromPem := fun l => if l = [2] then some 0 else none
  size := fun _ => 128
  nBytes := fun _ => [3]
  eBytes := fun _ => [4]
  dBytes := fun _ => [5]
  publicEncrypt := fun _ _ => some (List.replicate 128 7)
  privateDecrypt := fun _ _ => some [9]

set_option maxRecDepth 8000 in
/-- Witness for C3 at bit size 1024. -/
theorem rsa_ciphertext_length_fixed_witness :
    (∃ bundle, rsa_encrypt_without_key rsaPrimsW [9] RSA_BIT.B_1024
        = PanicOr.returned (Except.ok bundle) ∧
      bundle.result.length = RSA_BIT.B_1024.bytes) ∧
    RSA_BIT.bytes RSA_BIT.B_1024 = 128 ∧ RSA_BIT.bytes RSA_BIT.B_2048 = 256 ∧
    RSA_BIT.bytes RSA_BIT.B_4096 = 512 ∧ RSA_BIT.bytes RSA_BIT.B_8192 = 1024 :=
  rsa_ciphertext_length_fixed rsaPrimsW [9] RSA_BIT.B_1024 0 0 [1] [2]
    (List.replicate 128 7) rfl rfl rfl rfl rfl (by decide)

/-- C4: under the matching keypair (the private PEM exported alongside
the public one), with the PKCS#1 invariants as hypotheses (the primitive
writes a modulus-sized ciphertext; decryption recovers the plaintext,
whose length is below the modulus size), `rsa_decrypt` applied to the
ciphertext of `rsa_encrypt_without_key` returns exactly the original
plaintext bytes, trimmed to the length the primitive reports. -/
theorem rsa_encrypt_decrypt_roundtrip {K : Type} (P : RsaPrims K)
    (target : List Nat) (bit_size : RSA_BIT) (kp kpub kprv : K)
    (pubPem prvPem ct : List Nat)
    (hgen : P.generate bit_size.bit = some kp)
    (hpubpem : P.publicKeyToPem kp = some pubPem)
    (hprvpem : P.privateKeyToPem kp = some prvPem)
    (hparse : P.publicKeyFromPem pubPem = some kpub)
    (henc : P.publicEncrypt kpub target = some ct)
    (hctlen : ct.length = P.size kpub)
    (hparse2 : P.privateKeyFromPem prvPem = some kprv)
    (hdec : P.privateDecrypt kprv ct = some target)
    (hplen : target.length ≤ P.size kprv) :
    rsa_encrypt_without_key P target bit_size
      = PanicOr.returned (Except.ok ⟨pubPem, P.nBytes kp, P.eBytes kp, prvPem,
          P.nBytes kp, P.dBytes kp, ct⟩) ∧
    rsa_decrypt P ct prvPem = Except.ok target := by
  constructor
  · simp only [rsa_encrypt_without_key, generate_rsa_keypair, rsa_encrypt,
      hgen, hpubpem, hprvpem, hparse, henc, rsaBuffer_exact (P.size kpub) ct hctlen]
  · simp only [rsa_decrypt, hparse2, hdec, rsaBuffer_take (P.size kprv) target hplen]

set_option maxRecDepth 8000 in
/-- Witness for C4 with the one-byte plaintext `[9]`. -/
theorem rsa_encrypt_decrypt_roundtrip_witness :
    rsa_encrypt_without_key rsaPrimsW [9] RSA_BIT.B_1024
      = PanicOr.returned (Except.ok ⟨[1], [3], [4], [2], [3], [5],
          List.replicate 128 7⟩) ∧
    rsa_decrypt rsaPrimsW (List.replicate 128 7) [2] = Except.ok [9] :=
  rsa_encrypt_decrypt_roundtrip rsaPrimsW [9] RSA_BIT.B_1024 0 0 0 [1] [2]
    (List.replicate 128 7) rfl rfl rfl rfl rfl (by decide) rfl rfl (by decide)

/-- RSA primitives on which every PEM parse fails, exhibiting the panic
path of `rsa_encrypt`. -/
def rsaPrimsBadPem : RsaPrims Unit where
  generate := fun _ => none
  publicKeyToPem := fun _ => none
  privateKeyToPem := fun _ => none
  publicKeyFromPem := fun _ => none
  privateKeyFromPem := fun _ => none
  size := fun _ => 0
  nBytes := fun _ => []
  eBytes := fun _ => []
  dBytes := fun _ => []
  publicEncrypt := fun _ _ => none
  privateDecrypt := fun _ _ => none

/-- C5 (code bug): when loading the public key from its PEM encoding
fails, `rsa_encrypt` panics (the source unwraps the parse result) instead
of returning the `CryptoError` the specification promises. -/
theorem rsa_encrypt_panics_on_bad_pem :
    rsa_encrypt rsaPrimsBadPem (asciiBytes "a") [] = PanicOr.panicked := rfl
